import Mathlib

/-!
Shallow embedding of the NodeLogInsight log-ingestion pipeline (`main.go`):
the committed-state line matcher, the numeric and timestamp parsing with
ignored errors, the `parseAndStore` step against a MongoDB collection whose
insert outcomes are supplied explicitly, the unique-index bootstrap with its
duplicate repair pass, the historical-segment scanner, and the
rotation-aware tailer's notification loop.
-/

namespace NodeLog

/-- The whitespace class of Go regexp (RE2) for the escape used in the
committed-state pattern: tab, newline, form feed, carriage return, space. -/
def reSpace (c : Char) : Bool :=
  c = ' ' || c = '\t' || c = '\n' || c = '\x0c' || c = '\r'

/-- Whitespace predicate of Go's `unicode.IsSpace`, the class used by
`strings.TrimSpace` on the `appHash` capture. -/
def goIsSpace (c : Char) : Bool :=
  c = '\t' || c = '\n' || c = '\x0b' || c = '\x0c' || c = '\r' || c = ' ' ||
    c = '\u0085' || c = '\u00a0' || c = '\u1680' ||
    ('\u2000' ≤ c && c ≤ '\u200a') ||
    c = '\u2028' || c = '\u2029' || c = '\u202f' || c = '\u205f' || c = '\u3000'

/-- Match a literal character sequence at the head of the input and return the
rest, or fail. -/
def dropLit : List Char → List Char → Option (List Char)
  | [], s => some s
  | _ :: _, [] => none
  | l :: ls, c :: cs => if c = l then dropLit ls cs else none

/-- The regex fragment of one-or-more whitespace followed by a literal word
(`module=`, `height=`, `txs=`, `appHash=`).  Because each literal starts with a
non-whitespace character, the greedy whitespace repetition is forced to consume
exactly the maximal whitespace run. -/
def wsThenLit (lit : List Char) (s : List Char) : Option (List Char) :=
  if (s.takeWhile reSpace).isEmpty then none
  else dropLit lit (s.dropWhile reSpace)

/-- A non-greedy capturing group followed by its continuation, with the
leftmost-first (lazy) semantics of Go's regexp: the shortest capture whose
continuation succeeds wins.  The dot of the pattern does not match a newline. -/
def lazyGroup {α : Type} (cont : List Char → Option α) :
    List Char → Option (List Char × α)
  | [] =>
    match cont [] with
    | some a => some ([], a)
    | none => none
  | c :: rest =>
    match cont (c :: rest) with
    | some a => some ([], a)
    | none =>
      if c = '\n' then none
      else (lazyGroup cont rest).map (fun p => (c :: p.1, p.2))

/-- The five captures of the committed-state pattern. -/
structure RawMatch where
  ts : List Char
  mod : List Char
  height : List Char
  txs : List Char
  appHash : List Char
  deriving DecidableEq

/-- The final greedy capture of the pattern: everything up to a newline or the
end of the input. -/
def group5 (s : List Char) : List Char := s.takeWhile (fun c => c ≠ '\n')

/-- The pattern tail from the whitespace before `appHash=` on: the final
capture is greedy. -/
def stage5 (w : List Char) : Option (List Char) := do
  let w1 ← wsThenLit "appHash=".toList w
  pure (group5 w1)

/-- The pattern tail from the whitespace before `txs=` on: the lazy `txs`
capture and the tail after it. -/
def stage4 (v : List Char) : Option (List Char × List Char) := do
  let v1 ← wsThenLit "txs=".toList v
  lazyGroup stage5 v1

/-- The pattern tail from the whitespace before `height=` on. -/
def stage3 (u : List Char) : Option (List Char × List Char × List Char) := do
  let u1 ← wsThenLit "height=".toList u
  lazyGroup stage4 u1

/-- The pattern tail from the literal `] Committed State` on. -/
def stage2 (t : List Char) :
    Option (List Char × List Char × List Char × List Char) := do
  let t1 ← dropLit "] Committed State".toList t
  let t2 ← wsThenLit "module=".toList t1
  lazyGroup stage3 t2

/-- Attempt the committed-state pattern anchored at the head of `s`
(the unanchored search is `findCommitted`).  The pattern is the source's
regular expression: literal `I[`, a lazy capture, literal `] Committed State`,
whitespace, `module=`, a lazy capture, whitespace, `height=`, a lazy capture,
whitespace, `txs=`, a lazy capture, whitespace, `appHash=`, a greedy capture. -/
def matchFrom (s : List Char) : Option RawMatch := do
  let s1 ← dropLit "I[".toList s
  let (g1, (g2, (g3, (g4, g5)))) ← lazyGroup stage2 s1
  pure ⟨g1, g2, g3, g4, g5⟩

/-- `FindStringSubmatch` of the committed-state pattern: try each start
position from the left; the leftmost successful start wins. -/
def findCommitted : List Char → Option RawMatch
  | [] => matchFrom []
  | c :: rest =>
    match matchFrom (c :: rest) with
    | some m => some m
    | none => findCommitted rest

/-- Decimal value of a digit list. -/
def digitsVal (ds : List Char) : Nat :=
  ds.foldl (fun a c => a * 10 + (c.toNat - 48)) 0

/-- All characters are decimal digits. -/
def allDigits (ds : List Char) : Bool := ds.all (fun c => '0' ≤ c && c ≤ '9')

/-- The value produced by Go `strconv.ParseInt(s, 10, 64)` when the caller
discards the error, as `parseAndStore` does: `0` on a syntax error (empty
string, stray sign, non-digit), and on an out-of-range value the saturated
int64 bound that `ParseInt` returns alongside its range error.
`strconv.Atoi` is `ParseInt(s, 10, 0)` with the platform int width, which is
also 64 bits for the linux build of this repository. -/
def goParseInt64 (s : List Char) : Int :=
  let core : Bool × List Char :=
    match s with
    | '+' :: r => (false, r)
    | '-' :: r => (true, r)
    | r => (false, r)
  let neg := core.1
  let ds := core.2
  if ds.isEmpty || !allDigits ds then 0
  else
    let n : Nat := digitsVal ds
    if neg then
      if n > 2 ^ 63 then -(2 ^ 63) else -(n : Int)
    else
      if n ≥ 2 ^ 63 then 2 ^ 63 - 1 else (n : Int)

/-- Cumulative days before each month in a non-leap year. -/
def daysBeforeMonth : Nat → Nat
  | 1 => 0 | 2 => 31 | 3 => 59 | 4 => 90 | 5 => 120 | 6 => 151
  | 7 => 181 | 8 => 212 | 9 => 243 | 10 => 273 | 11 => 304 | 12 => 334
  | _ => 0

/-- Gregorian leap-year rule, as in Go's `time` package. -/
def isLeapYear (y : Nat) : Bool := y % 4 = 0 && (y % 100 ≠ 0 || y % 400 = 0)

/-- Days in a month of a given year. -/
def daysInMonth (y m : Nat) : Nat :=
  if m = 2 then (if isLeapYear y then 29 else 28)
  else if m = 4 || m = 6 || m = 9 || m = 11 then 30
  else 31

/-- Exactly `n` decimal digits at the head of the input: their value and the
rest. -/
def fixedDigits (n : Nat) (s : List Char) : Option (Nat × List Char) :=
  let ds := s.take n
  if ds.length = n && allDigits ds then some (digitsVal ds, s.drop n)
  else none

/-- One mandatory literal character. -/
def dropChar (c : Char) : List Char → Option (List Char)
  | x :: r => if x = c then some r else none
  | [] => none

/-- The date half of the layout: four-digit year, dash, two-digit month, dash,
two-digit day. -/
def parseDate (s : List Char) : Option (Nat × Nat × Nat × List Char) := do
  let (y, s) ← fixedDigits 4 s
  let s ← dropChar '-' s
  let (mo, s) ← fixedDigits 2 s
  let s ← dropChar '-' s
  let (d, s) ← fixedDigits 2 s
  pure (y, mo, d, s)

/-- The clock part of the layout up to the seconds: pipe separator, two-digit
hour, colon, two-digit minute, colon, two-digit second. -/
def parseClock (s : List Char) : Option (Nat × Nat × Nat × List Char) := do
  let s ← dropChar '|' s
  let (h, s) ← fixedDigits 2 s
  let s ← dropChar ':' s
  let (mi, s) ← fixedDigits 2 s
  let s ← dropChar ':' s
  let (sec, s) ← fixedDigits 2 s
  pure (h, mi, sec, s)

/-- Days from the Go zero time (January 1 of year 1) to the given date, with
the Gregorian leap rule applied prolepticly as Go's `time` package does. -/
def daysFromZero (y mo d : Nat) : Int :=
  365 * ((y : Int) - 1) + Int.fdiv ((y : Int) - 1) 4 -
    Int.fdiv ((y : Int) - 1) 100 + Int.fdiv ((y : Int) - 1) 400 +
    (daysBeforeMonth mo : Int) +
    (if isLeapYear y && 2 < mo then 1 else 0) + ((d : Int) - 1)

/-- Go `time.Parse` with the source's fixed layout of date, pipe separator and
millisecond time, modelled as milliseconds since the Go zero time (January 1 of
year 1, 00:00:00.000 UTC): `none` on any syntax or range failure, in which case
the caller keeps the zero value `0`.  Each layout field requires its exact
digit count, and the whole input must be consumed. -/
def goParseTimeMs (s : List Char) : Option Int := do
  let (y, mo, d, s) ← parseDate s
  let (h, mi, sec, s) ← parseClock s
  let s ← dropChar '.' s
  let (ms, s) ← fixedDigits 3 s
  if !s.isEmpty then none
  else if mo < 1 || 12 < mo then none
  else if d < 1 || daysInMonth y mo < d then none
  else if 23 < h || 59 < mi || 59 < sec then none
  else
    some ((((daysFromZero y mo d * 24 + (h : Int)) * 60 + (mi : Int)) * 60 +
      (sec : Int)) * 1000 + (ms : Int))

/-- Go `strings.TrimSpace`: strip the characters of `unicode.IsSpace` from both
ends. -/
def goTrimSpace (s : List Char) : List Char :=
  ((s.dropWhile goIsSpace).reverse.dropWhile goIsSpace).reverse

/-- `CommittedState` (main.go): one document of the `committed_state`
collection.  The source's `time.Time` timestamp is held as milliseconds since
the Go zero time; the parse layout carries exactly three fractional digits, so
milliseconds are the full content of the source value. -/
structure CommittedState where
  timestampMs : Int
  mod : String
  height : Int
  txs : Int
  appHash : String
  deriving DecidableEq

/-- `BlockTimeGap` (main.go): one document of the `block_time_gap` collection.
The source stores `timeDiff` as float64 seconds computed from a
millisecond-grained subtraction; it is held here exactly, in milliseconds
(`msToSeconds` recovers the value in seconds). -/
structure BlockTimeGap where
  timestampMs : Int
  height : Int
  txs : Int
  timeDiffMs : Int
  previousHeight : Int
  deriving DecidableEq

/-- Seconds, as an exact rational, of a millisecond count: the value the
source's `Sub(...).Seconds()` denotes. -/
def msToSeconds (d : Int) : ℚ := (d : ℚ) / 1000

/-- The parsing half of `parseAndStore` (main.go:245-256): apply the
committed-state pattern; on a match build the `CommittedState` entry, with the
errors of `time.Parse`, `strconv.ParseInt` and `strconv.Atoi` discarded exactly
as the source discards them. -/
def parseLine (line : String) : Option CommittedState :=
  (findCommitted line.toList).map fun m =>
    { timestampMs := (goParseTimeMs m.ts).getD 0
      mod := String.mk m.mod
      height := goParseInt64 m.height
      txs := goParseInt64 m.txs
      appHash := String.mk (goTrimSpace m.appHash) }

/-- Outcome of a MongoDB `InsertOne`, as far as the source distinguishes:
success, a duplicate-key error (`mongo.IsDuplicateKeyError`), or any other
error. -/
inductive InsertResult where
  | ok
  | dupKey
  | otherErr
  deriving DecidableEq

/-- Everything one call of `parseAndStore` does, besides returning: which
insert calls it issued, which error logs it emitted, and the new value of the
global `lastCommittedState`. -/
structure StepResult where
  /-- the entry whose `InsertOne` into `committed_state` was attempted -/
  inserted : Option CommittedState
  /-- an error was logged for the `committed_state` insert -/
  insertErrLogged : Bool
  /-- the gap record whose `InsertOne` into `block_time_gap` was attempted -/
  gapInserted : Option BlockTimeGap
  /-- an error was logged for the `block_time_gap` insert -/
  gapErrLogged : Bool
  /-- `lastCommittedState` after the call -/
  newLast : Option CommittedState
  deriving DecidableEq

/-- One call of `parseAndStore` (main.go:238-298).  `last` is the global
`lastCommittedState` on entry; `rc` and `rg` are the outcomes the database
returns for the two possible `InsertOne` calls.  The source's threshold
`timeDiff >= 5.0` on float64 seconds is compared as 5000 milliseconds, which
is exact for millisecond-grained timestamps (a float64 rounding of `d/1000`
can only cross 5.0 when `d = 5000` exactly, where no rounding occurs). -/
def parseAndStore (line : String) (last : Option CommittedState)
    (rc rg : InsertResult) : StepResult :=
  match parseLine line with
  | none =>
    { inserted := none, insertErrLogged := false, gapInserted := none,
      gapErrLogged := false, newLast := last }
  | some entry =>
    let insertErrLogged := decide (rc = InsertResult.otherErr)
    let gapPart : Option BlockTimeGap × Bool :=
      match last with
      | none => (none, false)
      | some prev =>
        let diffMs := entry.timestampMs - prev.timestampMs
        if 5000 ≤ diffMs then
          (some { timestampMs := entry.timestampMs, height := entry.height,
                  txs := entry.txs, timeDiffMs := diffMs,
                  previousHeight := prev.height },
           decide (rg = InsertResult.otherErr))
        else (none, false)
    { inserted := some entry, insertErrLogged := insertErrLogged,
      gapInserted := gapPart.1, gapErrLogged := gapPart.2,
      newLast := some entry }

/-- Feed a list of lines through `parseAndStore` in order with every insert
succeeding, starting from a given `lastCommittedState`: the committed entries
and gap records handed to the store, in order. -/
def runLinesFrom (last : Option CommittedState) :
    List String → List CommittedState × List BlockTimeGap
  | [] => ([], [])
  | l :: rest =>
    let r := parseAndStore l last InsertResult.ok InsertResult.ok
    let tail := runLinesFrom r.newLast rest
    (r.inserted.toList ++ tail.1, r.gapInserted.toList ++ tail.2)

/-! ### Event Store bootstrap: unique index and duplicate repair -/

/-- One stored document, as far as `removeDuplicates` (main.go:371-426) looks
at it: its MongoDB `_id` and the indexed field value. -/
structure Doc where
  id : Nat
  height : Int
  deriving DecidableEq

/-- The `_id`s pushed by the aggregation's `$group` stage for one field value,
in collection order. -/
def groupIds (docs : List Doc) (h : Int) : List Nat :=
  (docs.filter (fun d => decide (d.height = h))).map Doc.id

/-- The field values the aggregation's `$match {count: {$gt: 1}}` stage
keeps. -/
def dupHeights (docs : List Doc) : List Int :=
  ((docs.map Doc.height).dedup).filter (fun h => decide (1 < (groupIds docs h).length))

/-- The `_id`s that the repair loop deletes: for every duplicated field value,
every pushed `_id` except the first. -/
def idsToDelete (docs : List Doc) : List Nat :=
  (dupHeights docs).flatMap (fun h => (groupIds docs h).tail)

/-- `collection.DeleteOne({_id: i})`: remove the first document carrying that
`_id`. -/
def deleteOne (i : Nat) : List Doc → List Doc
  | [] => []
  | d :: r => if d.id = i then r else d :: deleteOne i r

/-- `removeDuplicates` (main.go:371-426): delete, one `DeleteOne` call at a
time, every `_id` beyond the first of every duplicated group. -/
def removeDuplicates (docs : List Doc) : List Doc :=
  (idsToDelete docs).foldl (fun acc i => deleteOne i acc) docs

/-- Whether `CreateOne` of the unique index fails with an `E11000 duplicate
key error`: some field value occurs in more than one document. -/
def hasDupHeights (docs : List Doc) : Bool :=
  docs.any (fun d => decide (1 < (groupIds docs d.height).length))

/-- `createUniqueIndex` (main.go:322-368) on a collection without a
pre-existing index: the first `CreateOne` fails with `E11000` exactly when
duplicate field values exist; the repair pass then runs and `CreateOne` is
retried, a second failure being the fatal path (`none`).  Returns the
collection contents after the call. -/
def createUniqueIndex (docs : List Doc) : Option (List Doc) :=
  if hasDupHeights docs then
    let repaired := removeDuplicates docs
    if hasDupHeights repaired then none else some repaired
  else some docs

/-! ### Historical Scanner -/

/-- A directory entry as `os.ReadDir` reports it. -/
structure DirEntry where
  name : String
  isDir : Bool

/-- How one character of the interpolated live-file name matches inside the
compiled pattern: `fmt.Sprintf` splices the name into the regular expression
unescaped, so a dot of the name is the regexp wildcard for any non-newline
character rather than a literal dot.  (This model is faithful for live names
whose only regexp metacharacter is the dot, as in the default
`stdout-xx.txt`.) -/
def charMatches (p c : Char) : Bool := if p = '.' then c ≠ '\n' else c = p

/-- The anchored pattern of `processHistoricalLogs` (main.go:104): the
interpolated live name, a literal dot, one or more digits, end of string. -/
def nameMatches : List Char → List Char → Bool
  | [], '.' :: ds => !ds.isEmpty && allDigits ds
  | [], _ => false
  | _ :: _, [] => false
  | p :: ps, c :: cs => charMatches p c && nameMatches ps cs

/-- The literal reading of the specification's selection contract: the name is
exactly the live name, a dot, and a nonempty digit string. -/
def specNameMatchesLiterally (liveName name : List Char) : Bool :=
  match dropLit liveName name with
  | some ('.' :: ds) => !ds.isEmpty && allDigits ds
  | _ => false

/-- The numeric sort key of a selected name: `strconv.Atoi` of the digit
capture, i.e. of everything after the live name and its following dot. -/
def suffixKey (mainLogName name : List Char) : Int :=
  goParseInt64 (name.drop (mainLogName.length + 1))

/-- `processHistoricalLogs` (main.go:96-126): keep the non-directory entries
whose name matches the compiled pattern, then sort by the numeric suffix
(`sort.Slice` with `numA < numB`; the unstable `sort.Slice` is modelled by a
concrete comparison sort, which produces one of the orders `sort.Slice` may
produce).  Returns the file names in processing order. -/
def processHistoricalLogs (entries : List DirEntry) (mainLogName : String) :
    List String :=
  let pat := mainLogName.toList
  let selected :=
    (entries.filter (fun f => !f.isDir && nameMatches pat f.name.toList)).map
      DirEntry.name
  List.insertionSort
    (fun a b => suffixKey pat a.toList ≤ suffixKey pat b.toList) selected

/-- The order in which `main` (main.go:71-77, with `SKIP_HISTORICAL_LOGS`
unset) hands files to `processSingleFile`: every selected historical segment in
sorted order, then the live file. -/
def startupProcessingOrder (entries : List DirEntry) (mainLogName : String) :
    List String :=
  processHistoricalLogs entries mainLogName ++ [mainLogName]

/-! ### Line scanning (`bufio.Scanner` with `ScanLines`) -/

/-- `dropCR`: strip one carriage return from the end of a token. -/
def dropCR (l : List Char) : List Char :=
  if l.getLast? = some '\r' then l.dropLast else l

/-- Worker for `scanLines`; `acc` holds the characters of the current token in
reverse. -/
def scanLinesAux (acc : List Char) : List Char → List (List Char)
  | [] => if acc.isEmpty then [] else [dropCR acc.reverse]
  | c :: s =>
    if c = '\n' then dropCR acc.reverse :: scanLinesAux [] s
    else scanLinesAux (c :: acc) s

/-- The token stream `bufio.Scanner` with `bufio.ScanLines` produces from a
reader that is consumed to EOF: tokens are separated by a newline, a carriage
return immediately before the separator is dropped, and a nonempty final token
without a newline is also delivered. -/
def scanLines (s : List Char) : List (List Char) := scanLinesAux [] s

/-! ### `processSingleFile` -/

/-- Outcome of the `os.Open` call in `processSingleFile`. -/
inductive OpenResult where
  | ok (content : List Char)
  | notExist
  | otherErr

/-- `processSingleFile` (main.go:129-147) with the outcome of `os.Open`
supplied: whether the open failure was logged, and the lines handed to
`parseAndStore`.  A missing file is recognised by `os.IsNotExist` and skipped
without logging; any other open failure is logged; both return without
touching the store. -/
def processSingleFile : OpenResult → Bool × List (List Char)
  | OpenResult.ok content => (false, scanLines content)
  | OpenResult.notExist => (false, [])
  | OpenResult.otherErr => (true, [])

/-! ### Rotation-aware Tailer (`watchLogFile`) -/

/-- A snapshot of the watched directory.  Rotation replaces the inode behind
the watched path, so files are identified by a generation number that an open
handle retains across rotation. -/
structure FS where
  pathFile : String → Option Nat
  content : Nat → List Char

/-- An open `os.File`: the inode it was opened on and its read offset. -/
structure Handle where
  fileId : Nat
  pos : Nat
  deriving DecidableEq

/-- The tailer's state: the open handle (or `nil`) and the `currentPos`
offset. -/
structure TailState where
  handle : Option Handle
  currentPos : Nat
  deriving DecidableEq

/-- A notification from the `fsnotify` directory watch; `Create` and `Write`
are separate bits of `event.Op` and one event may carry both. -/
structure FsEvent where
  name : String
  isCreate : Bool
  isWrite : Bool

/-- `openAndSeek` (main.go:160-172): open the watched path and seek to
`currentPos`; on failure the handle stays `nil` and the failure is logged. -/
def openAndSeek (fs : FS) (filePath : String) (currentPos : Nat) :
    Option Handle :=
  (fs.pathFile filePath).map (fun i => { fileId := i, pos := currentPos })

/-- The body of the write branch once a handle is open (main.go:215-227):
scan the handle to EOF from its offset, hand every token to `parseAndStore`,
then record the new offset (`Seek(0, SEEK_CUR)`, which is the end of the file,
or the old offset when it already sat at or past the end). -/
def writeRead (fs : FS) (h : Handle) : TailState × List (List Char) :=
  let content := fs.content h.fileId
  let newPos := max h.pos content.length
  ({ handle := some { fileId := h.fileId, pos := newPos },
     currentPos := newPos },
   scanLines (content.drop h.pos))

/-- One iteration of the `watcher.Events` loop of `watchLogFile`
(main.go:188-227) on notification `ev` against directory snapshot `fs`:
the new tailer state and the lines handed to `parseAndStore`.  Events for
other paths are ignored; a create for the watched path closes the handle,
resets the offset to zero and reopens; a write reads from the current handle,
first reopening at the saved offset if no handle is open. -/
def handleEvent (fs : FS) (filePath : String) (ev : FsEvent)
    (st : TailState) : TailState × List (List Char) :=
  if ev.name ≠ filePath then (st, [])
  else
    let st1 :=
      if ev.isCreate then
        { handle := openAndSeek fs filePath 0, currentPos := 0 }
      else st
    if ev.isWrite then
      match st1.handle with
      | none =>
        match openAndSeek fs filePath st1.currentPos with
        | none => (st1, [])
        | some h => writeRead fs h
      | some h => writeRead fs h
    else (st1, [])

/-! ### Shared concrete inputs -/

/-- The specification's first example line. -/
def exLine1 : String :=
  "I[2024-01-01|00:00:05.000] Committed State module=x height=10 txs=3 appHash=abc"

/-- The specification's second example line, six seconds later. -/
def exLine2 : String :=
  "I[2024-01-01|00:00:11.000] Committed State module=x height=11 txs=1 appHash=def"

/-- The event `exLine1` parses to (timestamps in milliseconds since the Go
zero time). -/
def exEntry1 : CommittedState := ⟨63839664005000, "x", 10, 3, "abc"⟩

/-- The event `exLine2` parses to. -/
def exEntry2 : CommittedState := ⟨63839664011000, "x", 11, 1, "def"⟩

/-! ### Claims -/

/-- C1: a duplicate-key failure of the `committed_state` insert is treated
exactly as success: the whole step result is identical to the success case
(so the gap check and the state advance proceed unchanged) and no error is
logged.  Any other insert failure logs an error, and the step is otherwise
identical to the success case — the event is dropped in the sense that no
retry of the insert exists (a single `inserted` attempt is the entire
interaction with the collection) and processing continues. -/
theorem claimC1 (line : String) (last : Option CommittedState)
    (rg : InsertResult) :
    parseAndStore line last InsertResult.dupKey rg =
        parseAndStore line last InsertResult.ok rg ∧
    (parseAndStore line last InsertResult.dupKey rg).insertErrLogged = false ∧
    ((parseLine line).isSome →
      (parseAndStore line last InsertResult.otherErr rg).insertErrLogged
          = true ∧
      parseAndStore line last InsertResult.otherErr rg =
        { parseAndStore line last InsertResult.ok rg with
            insertErrLogged := true }) := by
  cases h : parseLine line with
  | none => simp [parseAndStore, h]
  | some entry => simp [parseAndStore, h]

/-- C1 witness at the first example line. -/
theorem claimC1_witness :
    (parseAndStore exLine1 none InsertResult.otherErr
        InsertResult.ok).insertErrLogged = true :=
  ((claimC1 exLine1 none InsertResult.ok).2.2 (by decide)).1

/-- C7 counterexample: the claim says the held prior-event state is not
updated to an event whose insert fails for a non-duplicate reason; but after
processing `exLine2` with a failing insert (`otherErr`), `lastCommittedState`
is `exEntry2` — the event that was never stored — and no longer the previously
stored `exEntry1`. -/
theorem claimC7_cex :
    (parseAndStore exLine2 (some exEntry1) InsertResult.otherErr
        InsertResult.ok).newLast = some exEntry2 ∧
    exEntry2 ≠ exEntry1 := by
  constructor
  · decide
  · decide

/-- C7 amended: the Gap Detector's held state is the last *parsed* event, not
the last successfully stored one — `lastCommittedState` advances to every
matched event unconditionally, whatever the outcome of its insert. -/
theorem claimC7 (line : String) (last : Option CommittedState)
    (rc rg : InsertResult) (entry : CommittedState)
    (h : parseLine line = some entry) :
    (parseAndStore line last rc rg).newLast = some entry := by
  simp [parseAndStore, h]

/-- C7 witness at the first example line. -/
theorem claimC7_witness :
    (parseAndStore exLine1 none InsertResult.otherErr
        InsertResult.ok).newLast = some exEntry1 :=
  claimC7 exLine1 none InsertResult.otherErr InsertResult.ok exEntry1
    (by decide)

/-- C8 counterexample: the claim says a file that is missing at open time is
logged; but `processSingleFile` recognises `os.IsNotExist` and returns with
no diagnostic at all. -/
theorem claimC8_cex :
    (processSingleFile OpenResult.notExist).1 = false := by decide

/-- C8 amended: a missing file is skipped silently (no log — the
`os.IsNotExist` branch suppresses it); any other open failure is logged and
the file skipped; in both cases nothing is parsed and the function returns so
the pipeline continues; a successful open feeds every scanned line onward. -/
theorem claimC8 :
    processSingleFile OpenResult.notExist = (false, []) ∧
    processSingleFile OpenResult.otherErr = (true, []) ∧
    ∀ content, processSingleFile (OpenResult.ok content)
        = (false, scanLines content) :=
  ⟨rfl, rfl, fun _ => rfl⟩

/-- C10: a write notification arriving with no open handle first reopens the
watched file and seeks to the saved offset, so the delivered lines start at
`currentPos` — bytes before the saved offset are not re-read; if the reopen
fails the event is skipped with the state unchanged. -/
theorem claimC10 (fs : FS) (p : String) (st : TailState) (ev : FsEvent)
    (hn : ev.name = p) (hc : ev.isCreate = false) (hw : ev.isWrite = true)
    (hh : st.handle = none) :
    (fs.pathFile p = none → handleEvent fs p ev st = (st, [])) ∧
    (∀ i, fs.pathFile p = some i →
      handleEvent fs p ev st =
        (⟨some ⟨i, max st.currentPos (fs.content i).length⟩,
            max st.currentPos (fs.content i).length⟩,
         scanLines ((fs.content i).drop st.currentPos))) := by
  obtain ⟨name, isCreate, isWrite⟩ := ev
  obtain ⟨handle, currentPos⟩ := st
  subst hn
  simp only at hc hw hh
  subst hc; subst hw; subst hh
  constructor
  · intro hnone
    simp [handleEvent, openAndSeek, hnone]
  · intro i hi
    simp [handleEvent, openAndSeek, hi, writeRead]

/-- C10 witness: a concrete directory snapshot, saved offset 3. -/
theorem claimC10_witness :
    handleEvent
        { pathFile := fun q => if q = "f" then some 7 else none,
          content := fun _ => "ab\ncd\n".toList }
        "f" { name := "f", isCreate := false, isWrite := true }
        { handle := none, currentPos := 3 } =
      ({ handle := some { fileId := 7, pos := 6 }, currentPos := 6 },
       [['c', 'd']]) := by
  have h := (claimC10
    { pathFile := fun q => if q = "f" then some 7 else none,
      content := fun _ => "ab\ncd\n".toList }
    "f" { handle := none, currentPos := 3 }
    { name := "f", isCreate := false, isWrite := true }
    rfl rfl rfl rfl).2 7 (by simp)
  simpa using h

/-- A one-file directory snapshot whose file holds only the three characters
of an unterminated line. -/
def fsCex : FS :=
  { pathFile := fun q => if q = "watched" then some 0 else none,
    content := fun _ => ['I', '[', 'x'] }

/-- C5 counterexample: the claim says a write notification reads the newly
available *complete* lines; but with the file holding only `I[x` — which
contains no newline, hence no complete line — the write branch hands the
unterminated fragment to the parser anyway and advances the offset past it
(`bufio.ScanLines` delivers a nonempty final token even without a newline). -/
theorem claimC5_cex :
    (handleEvent fsCex "watched" ⟨"watched", false, true⟩
        ⟨some ⟨0, 0⟩, 0⟩).2 = [['I', '[', 'x']] ∧
    '\n' ∉ fsCex.content 0 := by
  constructor
  · decide
  · decide

/-- C5 amended: notifications for other paths leave the state unchanged and
parse nothing; a create for the watched path closes the handle, zeroes the
offset and reopens from the start; a write for the watched path delivers
every token `bufio.ScanLines` finds from the handle's offset to EOF —
including a trailing unterminated fragment — and advances the offset to the
end of file; and content present in the new file when rotation was detected
is fully captured by the next write event. -/
theorem claimC5 (fs : FS) (p : String) (st : TailState) :
    (∀ ev : FsEvent, ev.name ≠ p → handleEvent fs p ev st = (st, [])) ∧
    (handleEvent fs p ⟨p, true, false⟩ st =
      ({ handle := openAndSeek fs p 0, currentPos := 0 }, [])) ∧
    (∀ h : Handle, st.handle = some h →
      handleEvent fs p ⟨p, false, true⟩ st =
        (⟨some ⟨h.fileId, max h.pos (fs.content h.fileId).length⟩,
            max h.pos (fs.content h.fileId).length⟩,
         scanLines ((fs.content h.fileId).drop h.pos))) ∧
    (∀ j, fs.pathFile p = some j → ∀ fs' : FS,
      handleEvent fs' p ⟨p, false, true⟩
          (handleEvent fs p ⟨p, true, false⟩ st).1 =
        (⟨some ⟨j, (fs'.content j).length⟩, (fs'.content j).length⟩,
         scanLines (fs'.content j))) := by
  refine ⟨?_, ?_, ?_, ?_⟩
  · intro ev hne
    simp [handleEvent, hne]
  · simp [handleEvent]
  · intro h hh
    simp [handleEvent, hh, writeRead]
  · intro j hj fs'
    simp [handleEvent, openAndSeek, hj, writeRead]

/-- C5 witness: an ignored notification for a sibling path. -/
theorem claimC5_witness :
    handleEvent fsCex "watched" ⟨"sibling", false, true⟩ ⟨none, 5⟩ =
      (⟨none, 5⟩, []) :=
  (claimC5 fsCex "watched" ⟨none, 5⟩).1 ⟨"sibling", false, true⟩ (by decide)

/-- The threshold comparison of the source (`timeDiff >= 5.0` on seconds) in
milliseconds. -/
theorem msToSeconds_threshold (d : Int) : 5 ≤ msToSeconds d ↔ 5000 ≤ d := by
  unfold msToSeconds
  rw [le_div_iff₀ (by norm_num : (0 : ℚ) < 1000)]
  constructor
  · intro h
    exact_mod_cast h
  · intro h
    exact_mod_cast h

/-- C2: the Gap Detector is the two-state machine the claim describes.  On a
matched event with no prior event held, no gap is stored and the state
becomes the new event; with a prior event held, a gap record with exactly the
claimed fields is stored iff the elapsed seconds reach 5.0, and the state
advances to the new event in all cases.  The two example lines six seconds
apart yield the two committed events of heights 10 and 11 and one gap record
`{height 11, previousHeight 10, timeDiff 6.0 s}`. -/
theorem claimC2 :
    (∀ (line : String) (last : Option CommittedState) (rc rg : InsertResult)
        (entry : CommittedState), parseLine line = some entry →
      (parseAndStore line last rc rg).newLast = some entry ∧
      (last = none → (parseAndStore line last rc rg).gapInserted = none) ∧
      (∀ prev, last = some prev →
        (5 ≤ msToSeconds (entry.timestampMs - prev.timestampMs) →
          (parseAndStore line last rc rg).gapInserted =
            some ⟨entry.timestampMs, entry.height, entry.txs,
                  entry.timestampMs - prev.timestampMs, prev.height⟩) ∧
        (msToSeconds (entry.timestampMs - prev.timestampMs) < 5 →
          (parseAndStore line last rc rg).gapInserted = none))) ∧
    runLinesFrom none [exLine1, exLine2] =
      ([exEntry1, exEntry2], [⟨63839664011000, 11, 1, 6000, 10⟩]) ∧
    msToSeconds 6000 = 6 := by
  refine ⟨?_, by decide, by norm_num [msToSeconds]⟩
  intro line last rc rg entry h
  refine ⟨by simp [parseAndStore, h], ?_, ?_⟩
  · rintro rfl
    simp [parseAndStore, h]
  · rintro prev rfl
    constructor
    · intro h5
      have h5' : 5000 ≤ entry.timestampMs - prev.timestampMs :=
        (msToSeconds_threshold _).mp h5
      simp [parseAndStore, h, h5']
    · intro h5
      have h5' : ¬ 5000 ≤ entry.timestampMs - prev.timestampMs := by
        intro hc
        exact absurd ((msToSeconds_threshold _).mpr hc) (not_le.mpr h5)
      simp [parseAndStore, h, h5']

/-- Matching a literal against itself followed by anything consumes exactly
the literal. -/
theorem dropLit_self_append (l r : List Char) : dropLit l (l ++ r) = some r := by
  induction l with
  | nil => rfl
  | cons c ls ih => simp [dropLit, ih]

/-- A literal fails on a head-character mismatch. -/
theorem dropLit_cons_ne (l : Char) (ls : List Char) (c : Char) (cs : List Char)
    (hne : ¬ c = l) : dropLit (l :: ls) (c :: cs) = none := by
  simp [dropLit, hne]

/-- A lazy group closes immediately when its continuation already succeeds. -/
theorem lazyGroup_of_cont {α : Type} (cont : List Char → Option α)
    (s : List Char) (a : α) (h : cont s = some a) :
    lazyGroup cont s = some ([], a) := by
  cases s <;> simp [lazyGroup, h]

/-- A lazy group swallows a block on which its continuation fails at every
start position, then closes where the continuation succeeds. -/
theorem lazyGroup_skip {α : Type} (cont : List Char → Option α)
    (blk rest : List Char) (a : α)
    (hno : ∀ n < blk.length, cont (blk.drop n ++ rest) = none)
    (hnl : ∀ c ∈ blk, ¬ c = '\n')
    (ha : cont rest = some a) :
    lazyGroup cont (blk ++ rest) = some (blk, a) := by
  induction blk with
  | nil => simpa using lazyGroup_of_cont cont rest a ha
  | cons c blk' ih =>
    have h0 : cont (c :: (blk' ++ rest)) = none := by
      simpa using hno 0 (by simp)
    have hc : ¬ c = '\n' := hnl c (by simp)
    have ih' : lazyGroup cont (blk' ++ rest) = some (blk', a) := by
      refine ih (fun n hn => ?_) (fun d hd => hnl d (by simp [hd]))
      simpa using hno (n + 1) (by simpa using Nat.succ_lt_succ hn)
    show lazyGroup cont (c :: (blk' ++ rest)) = _
    simp [lazyGroup, h0, hc, ih']

/-- `wsThenLit` fails when the head is not whitespace. -/
theorem wsThenLit_nonspace (lit : List Char) (c : Char) (r : List Char)
    (hc : reSpace c = false) : wsThenLit lit (c :: r) = none := by
  simp [wsThenLit, List.takeWhile_cons, hc]

/-- `wsThenLit` on a single space followed by a non-space consumes the space
and proceeds to the literal. -/
theorem wsThenLit_space_cons (lit : List Char) (c : Char) (r : List Char)
    (hc : reSpace c = false) :
    wsThenLit lit (' ' :: c :: r) = dropLit lit (c :: r) := by
  have hs : reSpace ' ' = true := by decide
  simp [wsThenLit, List.takeWhile_cons, List.dropWhile_cons, hs, hc]

/-- A non-whitespace character is not a newline. -/
theorem ne_newline_of_nonspace (c : Char) (hc : reSpace c = false) :
    ¬ c = '\n' := by
  intro hc'
  subst hc'
  simp [reSpace] at hc

/-- The greedy final capture takes a newline-free tail whole. -/
theorem group5_eq_self (a : List Char) (ha : ∀ c ∈ a, ¬ c = '\n') :
    group5 a = a := by
  unfold group5
  rw [List.takeWhile_eq_self_iff]
  intro c hc
  simpa using ha c hc

/-- The composite line's tail from the whitespace before `appHash=`. -/
def tailA (a : List Char) : List Char := ' ' :: "appHash=".toList ++ a

/-- The composite line's tail from the whitespace before `txs=`. -/
def tailT (t a : List Char) : List Char := ' ' :: "txs=".toList ++ (t ++ tailA a)

/-- The composite line's tail from the whitespace before `height=`. -/
def tailH (h t a : List Char) : List Char :=
  ' ' :: "height=".toList ++ (h ++ tailT t a)

/-- The composite line's tail from the whitespace before `module=`. -/
def tailM (m h t a : List Char) : List Char :=
  ' ' :: "module=".toList ++ (m ++ tailH h t a)

/-- The composite line's tail after the timestamp component. -/
def tailTS (m h t a : List Char) : List Char :=
  "] Committed State".toList ++ tailM m h t a

/-- The committed-state line built from its five components, with single
spaces as the separators. -/
def mkLine (ts m h t a : List Char) : List Char :=
  "I[".toList ++ (ts ++ tailTS m h t a)

/-- `stage5` fails when the head is not whitespace. -/
theorem stage5_nonspace (c : Char) (r : List Char) (hc : reSpace c = false) :
    stage5 (c :: r) = none := by
  simp [stage5, wsThenLit_nonspace _ _ _ hc]

/-- `stage5` on the `appHash` tail yields the whole newline-free component. -/
theorem stage5_block (a : List Char) (ha : ∀ c ∈ a, ¬ c = '\n') :
    stage5 (tailA a) = some a := by
  have h1 : wsThenLit "appHash=".toList (tailA a) = some a := by
    show wsThenLit "appHash=".toList (' ' :: 'a' :: ("ppHash=".toList ++ a))
      = some a
    rw [wsThenLit_space_cons _ _ _ (by decide)]
    exact dropLit_self_append "appHash=".toList a
  unfold stage5
  rw [h1]
  show some (group5 a) = some a
  rw [group5_eq_self a ha]

/-- `stage4` fails when the head is not whitespace. -/
theorem stage4_nonspace (c : Char) (r : List Char) (hc : reSpace c = false) :
    stage4 (c :: r) = none := by
  simp [stage4, wsThenLit_nonspace _ _ _ hc]

/-- `stage4` on the `txs` tail captures the whitespace-free `txs` component
and the `appHash` component. -/
theorem stage4_block (t a : List Char) (ht : ∀ c ∈ t, reSpace c = false)
    (ha : ∀ c ∈ a, ¬ c = '\n') :
    stage4 (tailT t a) = some (t, a) := by
  have h1 : wsThenLit "txs=".toList (tailT t a) = some (t ++ tailA a) := by
    show wsThenLit "txs=".toList (' ' :: 't' :: ("xs=".toList ++ (t ++ tailA a)))
      = some (t ++ tailA a)
    rw [wsThenLit_space_cons _ _ _ (by decide)]
    exact dropLit_self_append "txs=".toList (t ++ tailA a)
  have h2 : lazyGroup stage5 (t ++ tailA a) = some (t, a) := by
    refine lazyGroup_skip stage5 t (tailA a) a (fun n hn => ?_)
      (fun c hc => ne_newline_of_nonspace c (ht c hc)) (stage5_block a ha)
    rw [List.drop_eq_getElem_cons hn]
    exact stage5_nonspace _ _ (ht _ (List.getElem_mem hn))
  unfold stage4
  rw [h1]
  show lazyGroup stage5 (t ++ tailA a) = some (t, a)
  exact h2

/-- `stage3` fails when the head is not whitespace. -/
theorem stage3_nonspace (c : Char) (r : List Char) (hc : reSpace c = false) :
    stage3 (c :: r) = none := by
  simp [stage3, wsThenLit_nonspace _ _ _ hc]

/-- `stage3` on the `height` tail captures the three last components. -/
theorem stage3_block (h t a : List Char) (hh : ∀ c ∈ h, reSpace c = false)
    (ht : ∀ c ∈ t, reSpace c = false) (ha : ∀ c ∈ a, ¬ c = '\n') :
    stage3 (tailH h t a) = some (h, (t, a)) := by
  have h1 : wsThenLit "height=".toList (tailH h t a)
      = some (h ++ tailT t a) := by
    show wsThenLit "height=".toList
      (' ' :: 'h' :: ("eight=".toList ++ (h ++ tailT t a)))
      = some (h ++ tailT t a)
    rw [wsThenLit_space_cons _ _ _ (by decide)]
    exact dropLit_self_append "height=".toList (h ++ tailT t a)
  have h2 : lazyGroup stage4 (h ++ tailT t a) = some (h, (t, a)) := by
    refine lazyGroup_skip stage4 h (tailT t a) (t, a) (fun n hn => ?_)
      (fun c hc => ne_newline_of_nonspace c (hh c hc)) (stage4_block t a ht ha)
    rw [List.drop_eq_getElem_cons hn]
    exact stage4_nonspace _ _ (hh _ (List.getElem_mem hn))
  unfold stage3
  rw [h1]
  show lazyGroup stage4 (h ++ tailT t a) = some (h, (t, a))
  exact h2

/-- `stage2` fails when the head is not the closing bracket of the timestamp
capture. -/
theorem stage2_nonbracket (c : Char) (r : List Char) (hc : ¬ c = ']') :
    stage2 (c :: r) = none := by
  have h0 : dropLit "] Committed State".toList (c :: r) = none :=
    dropLit_cons_ne ']' "\x20Committed State".toList c r hc
  unfold stage2
  rw [h0]
  rfl

/-- `stage2` on the tail after the timestamp capture produces the four
remaining captures. -/
theorem stage2_block (m h t a : List Char)
    (hm : ∀ c ∈ m, reSpace c = false) (hh : ∀ c ∈ h, reSpace c = false)
    (ht : ∀ c ∈ t, reSpace c = false) (ha : ∀ c ∈ a, ¬ c = '\n') :
    stage2 (tailTS m h t a) = some (m, (h, (t, a))) := by
  have h1 : dropLit "] Committed State".toList (tailTS m h t a)
      = some (tailM m h t a) := by
    show dropLit "] Committed State".toList
      ("] Committed State".toList ++ tailM m h t a) = some (tailM m h t a)
    exact dropLit_self_append "] Committed State".toList (tailM m h t a)
  have h2 : wsThenLit "module=".toList (tailM m h t a)
      = some (m ++ tailH h t a) := by
    show wsThenLit "module=".toList
      (' ' :: 'm' :: ("odule=".toList ++ (m ++ tailH h t a)))
      = some (m ++ tailH h t a)
    rw [wsThenLit_space_cons _ _ _ (by decide)]
    exact dropLit_self_append "module=".toList (m ++ tailH h t a)
  have h3 : lazyGroup stage3 (m ++ tailH h t a) = some (m, (h, (t, a))) := by
    refine lazyGroup_skip stage3 m (tailH h t a) (h, (t, a)) (fun n hn => ?_)
      (fun c hc => ne_newline_of_nonspace c (hm c hc)) (stage3_block h t a hh ht ha)
    rw [List.drop_eq_getElem_cons hn]
    exact stage3_nonspace _ _ (hm _ (List.getElem_mem hn))
  unfold stage2
  rw [h1]
  show (wsThenLit "module=".toList (tailM m h t a)).bind (fun t2 =>
    lazyGroup stage3 t2) = some (m, (h, (t, a)))
  rw [h2]
  show lazyGroup stage3 (m ++ tailH h t a) = some (m, (h, (t, a)))
  exact h3

/-- `matchFrom` on the composite line extracts exactly the five components. -/
theorem matchFrom_mkLine (ts m h t a : List Char)
    (hts : ∀ c ∈ ts, ¬ c = ']' ∧ ¬ c = '\n')
    (hm : ∀ c ∈ m, reSpace c = false) (hh : ∀ c ∈ h, reSpace c = false)
    (ht : ∀ c ∈ t, reSpace c = false) (ha : ∀ c ∈ a, ¬ c = '\n') :
    matchFrom (mkLine ts m h t a) = some ⟨ts, m, h, t, a⟩ := by
  have hskip : lazyGroup stage2 (ts ++ tailTS m h t a)
      = some (ts, (m, (h, (t, a)))) := by
    refine lazyGroup_skip stage2 ts (tailTS m h t a) (m, (h, (t, a)))
      (fun n hn => ?_) (fun c hc => (hts c hc).2)
      (stage2_block m h t a hm hh ht ha)
    rw [List.drop_eq_getElem_cons hn]
    exact stage2_nonbracket _ _ ((hts _ (List.getElem_mem hn)).1)
  have hdl : dropLit "I[".toList (mkLine ts m h t a)
      = some (ts ++ tailTS m h t a) := by
    show dropLit "I[".toList ("I[".toList ++ (ts ++ tailTS m h t a))
      = some (ts ++ tailTS m h t a)
    exact dropLit_self_append "I[".toList (ts ++ tailTS m h t a)
  unfold matchFrom
  rw [hdl]
  show (lazyGroup stage2 (ts ++ tailTS m h t a)).bind _ = _
  rw [hskip]
  rfl

/-- `findCommitted` finds the composite line's pattern at its head. -/
theorem findCommitted_mkLine (ts m h t a : List Char)
    (hts : ∀ c ∈ ts, ¬ c = ']' ∧ ¬ c = '\n')
    (hm : ∀ c ∈ m, reSpace c = false) (hh : ∀ c ∈ h, reSpace c = false)
    (ht : ∀ c ∈ t, reSpace c = false) (ha : ∀ c ∈ a, ¬ c = '\n') :
    findCommitted (mkLine ts m h t a) = some ⟨ts, m, h, t, a⟩ := by
  have hmk : mkLine ts m h t a = 'I' :: '[' :: (ts ++ tailTS m h t a) := rfl
  rw [hmk, findCommitted, ← hmk, matchFrom_mkLine ts m h t a hts hm hh ht ha]

/-- C4 counterexample: the claim says an integer field that fails to parse is
zero-valued; but a height that is syntactically a number and merely out of
int64 range is a `strconv.ParseInt` failure (`ErrRange`) whose accompanying
value is the saturated bound, and the source keeps that value: the stored
height is `2^63 - 1`, not `0`. -/
theorem claimC4_cex :
    parseLine (String.mk (mkLine "2024-01-01|00:00:05.000".toList ['x']
        "9999999999999999999999".toList ['3'] "abc".toList)) =
      some ⟨63839664005000, "x", 9223372036854775807, 3, "abc"⟩ := by decide

/-- C4 amended: on a line built from the committed-state shape the parser
extracts the five fields, parsing the timestamp with the fixed
`YYYY-MM-DD|HH:MM:SS.mmm` layout (zero time on failure), the integers with
Go's `ParseInt`/`Atoi` semantics where a *syntax* failure yields zero but an
out-of-range value saturates at the int64 bounds, and trimming whitespace
from the `appHash` capture; a line whose numeric or timestamp fields fail to
parse still becomes an event.  The closed conjuncts exhibit the zero-valued
outcomes for a malformed integer and a malformed timestamp, and the
saturating outcome for an out-of-range integer. -/
theorem claimC4 (ts m h t a : List Char)
    (hts : ∀ c ∈ ts, ¬ c = ']' ∧ ¬ c = '\n')
    (hm : ∀ c ∈ m, reSpace c = false)
    (hh : ∀ c ∈ h, reSpace c = false)
    (ht : ∀ c ∈ t, reSpace c = false)
    (ha : ∀ c ∈ a, ¬ c = '\n') :
    parseLine (String.mk (mkLine ts m h t a)) =
      some ⟨(goParseTimeMs ts).getD 0, String.mk m, goParseInt64 h,
            goParseInt64 t, String.mk (goTrimSpace a)⟩ ∧
    goParseInt64 "12ab".toList = 0 ∧
    goParseInt64 "".toList = 0 ∧
    goParseTimeMs "2024-13-01|00:00:05.000".toList = none ∧
    goParseInt64 "9999999999999999999999".toList = 2 ^ 63 - 1 := by
  refine ⟨?_, by decide, by decide, by decide, by decide⟩
  have hfind := findCommitted_mkLine ts m h t a hts hm hh ht ha
  unfold parseLine
  show (findCommitted (mkLine ts m h t a)).map _ = _
  rw [hfind]
  rfl

/-- C4 witness: the composite line at the first example's components is
exactly the first example line and parses to its event. -/
theorem claimC4_witness :
    parseLine (String.mk (mkLine "2024-01-01|00:00:05.000".toList ['x']
        ['1', '0'] ['3'] "abc".toList)) =
      some ⟨(goParseTimeMs "2024-01-01|00:00:05.000".toList).getD 0,
            String.mk ['x'], goParseInt64 ['1', '0'], goParseInt64 ['3'],
            String.mk (goTrimSpace "abc".toList)⟩ ∧
    String.mk (mkLine "2024-01-01|00:00:05.000".toList ['x'] ['1', '0'] ['3']
        "abc".toList) = exLine1 :=
  ⟨(claimC4 "2024-01-01|00:00:05.000".toList ['x'] ['1', '0'] ['3']
      "abc".toList (by decide) (by decide) (by decide) (by decide)
      (by decide)).1,
   by decide⟩

/-- C2 witness at the example lines. -/
theorem claimC2_witness :
    (parseAndStore exLine2 (some exEntry1) InsertResult.ok
        InsertResult.ok).newLast = some exEntry2 ∧
    (parseAndStore exLine2 (some exEntry1) InsertResult.ok
        InsertResult.ok).gapInserted =
      some ⟨63839664011000, 11, 1, 6000, 10⟩ := by
  have h := claimC2.1 exLine2 (some exEntry1) InsertResult.ok InsertResult.ok
    exEntry2 (by decide)
  refine ⟨h.1, ?_⟩
  have hg := (h.2.2 exEntry1 rfl).1
    (by norm_num [msToSeconds, exEntry1, exEntry2])
  simpa [exEntry1, exEntry2] using hg

/-- The head of a character list is an occurrence of the pattern opener
`I[`. -/
def startsIBr : List Char → Bool
  | 'I' :: '[' :: _ => true
  | _ => false

/-- `matchFrom` can only succeed where `I[` opens the input. -/
theorem matchFrom_none_of_not_startsIBr (s : List Char)
    (h : startsIBr s = false) : matchFrom s = none := by
  match s with
  | [] => rfl
  | [c] =>
    have h0 : dropLit "I[".toList [c] = none := by
      show dropLit ['I', '['] [c] = none
      simp [dropLit]
    unfold matchFrom
    rw [h0]
    rfl
  | c1 :: c2 :: r =>
    have h0 : dropLit "I[".toList (c1 :: c2 :: r) = none := by
      show dropLit ['I', '['] (c1 :: c2 :: r) = none
      by_cases h1 : c1 = 'I'
      · subst h1
        by_cases h2 : c2 = '['
        · subst h2
          simp [startsIBr] at h
        · simp [dropLit, h2]
      · simp [dropLit, h1]
    unfold matchFrom
    rw [h0]
    rfl

/-- The leftmost search skips any leading block in which `I[` never occurs. -/
theorem findCommitted_append_of_no_IBr (p l : List Char)
    (hno : ∀ n < p.length, startsIBr ((p ++ l).drop n) = false) :
    findCommitted (p ++ l) = findCommitted l := by
  induction p with
  | nil => simp
  | cons c p' ih =>
    have h0 : matchFrom (c :: (p' ++ l)) = none :=
      matchFrom_none_of_not_startsIBr _ (by simpa using hno 0 (by simp))
    show findCommitted (c :: (p' ++ l)) = _
    rw [findCommitted, h0]
    exact ih (fun n hn => by
      simpa using hno (n + 1) (by simpa using Nat.succ_lt_succ hn))

/-- A line in which the pattern is embedded after a prefixed `I[`. -/
def hijackLine : String :=
  "I[I[2024-01-01|00:00:05.000] Committed State module=x height=10 txs=3 appHash=abc"

/-- C9 counterexample: the claim says a line that contains the pattern after
an arbitrary leading block is parsed exactly as the bare pattern line; but a
leading `I[` hijacks the leftmost match — the timestamp capture becomes the
garbage `I[2024-01-01|00:00:05.000`, whose parse fails to the zero time — so
the stored event differs from the bare line's event. -/
theorem claimC9_cex :
    hijackLine.toList = 'I' :: '[' :: exLine1.toList ∧
    parseLine hijackLine = some ⟨0, "x", 10, 3, "abc"⟩ ∧
    parseLine exLine1 = some exEntry1 ∧
    parseLine hijackLine ≠ parseLine exLine1 := by
  refine ⟨by decide, by decide, by decide, by decide⟩

/-- C9 amended: matching is substring-based (not anchored), and a line
containing the pattern behind a leading block is processed exactly as the
bare pattern line *provided* the opener `I[` does not occur anywhere in the
leading block (at any position, including astride its end); otherwise the
leftmost match can start inside the block and yield a different event. -/
theorem claimC9 (p l : List Char)
    (hno : ∀ n < p.length, startsIBr ((p ++ l).drop n) = false) :
    parseLine (String.mk (p ++ l)) = parseLine (String.mk l) ∧
    ∀ (last : Option CommittedState) (rc rg : InsertResult),
      parseAndStore (String.mk (p ++ l)) last rc rg =
        parseAndStore (String.mk l) last rc rg := by
  have hf : findCommitted (p ++ l) = findCommitted l :=
    findCommitted_append_of_no_IBr p l hno
  have hp : parseLine (String.mk (p ++ l)) = parseLine (String.mk l) := by
    unfold parseLine
    show (findCommitted (p ++ l)).map _ = (findCommitted l).map _
    rw [hf]
  refine ⟨hp, fun last rc rg => ?_⟩
  unfold parseAndStore
  rw [hp]

/-- C9 witness: a prefixed block free of `I[` leaves the processing of the
first example line unchanged. -/
theorem claimC9_witness :
    parseAndStore (String.mk ("junk ".toList ++ exLine1.toList)) none
        InsertResult.ok InsertResult.ok =
      parseAndStore exLine1 none InsertResult.ok InsertResult.ok := by
  have h := (claimC9 "junk ".toList exLine1.toList (by decide)).2 none
    InsertResult.ok InsertResult.ok
  exact h

/-- C6 counterexample: the claim says exactly the sibling files whose name
matches `<liveName>.<N>` are selected; but the live name is interpolated into
the pattern unescaped, so its dot is a regexp wildcard: with the default live
name `stdout-xx.txt`, the file `stdout-xxAtxt.1` — which does not have the
form `<liveName>.<N>` — is selected and processed. -/
theorem claimC6_cex :
    processHistoricalLogs [⟨"stdout-xxAtxt.1", false⟩] "stdout-xx.txt" =
      ["stdout-xxAtxt.1"] ∧
    specNameMatchesLiterally "stdout-xx.txt".toList
      "stdout-xxAtxt.1".toList = false := by
  refine ⟨by decide, by decide⟩

/-- C6 amended: the scanner selects exactly the non-directory entries whose
name matches the *compiled* pattern — the live name with its dot acting as a
regexp wildcard, then a literal dot and digits — sorts them ascending by the
numeric value of the digit suffix (not lexicographically), and the startup
order processes all of them before the live file. -/
theorem claimC6 (entries : List DirEntry) (mainLogName : String) :
    (∀ name : String, name ∈ processHistoricalLogs entries mainLogName ↔
      ∃ e ∈ entries, e.isDir = false ∧
        nameMatches mainLogName.toList e.name.toList = true ∧ e.name = name) ∧
    (processHistoricalLogs entries mainLogName).Pairwise
      (fun a b => suffixKey mainLogName.toList a.toList ≤
        suffixKey mainLogName.toList b.toList) ∧
    startupProcessingOrder entries mainLogName =
      processHistoricalLogs entries mainLogName ++ [mainLogName] := by
  refine ⟨?_, ?_, rfl⟩
  · intro name
    unfold processHistoricalLogs
    rw [(List.perm_insertionSort _ _).mem_iff]
    simp only [List.mem_map, List.mem_filter, Bool.and_eq_true,
      Bool.not_eq_true']
    constructor
    · rintro ⟨e, ⟨he, hdir, hmatch⟩, rfl⟩
      exact ⟨e, he, hdir, hmatch, rfl⟩
    · rintro ⟨e, he, hdir, hmatch, rfl⟩
      exact ⟨e, ⟨he, hdir, hmatch⟩, rfl⟩
  · unfold processHistoricalLogs
    haveI : IsTotal String (fun a b =>
        suffixKey mainLogName.toList a.toList ≤
          suffixKey mainLogName.toList b.toList) :=
      ⟨fun a b => le_total _ _⟩
    haveI : IsTrans String (fun a b =>
        suffixKey mainLogName.toList a.toList ≤
          suffixKey mainLogName.toList b.toList) :=
      ⟨fun _ _ _ hab hbc => le_trans hab hbc⟩
    exact List.sorted_insertionSort _ _

/-- With pairwise-distinct `_id`s, one `DeleteOne` call is a filter. -/
theorem deleteOne_eq_filter (i : Nat) (docs : List Doc)
    (hid : (docs.map Doc.id).Nodup) :
    deleteOne i docs = docs.filter (fun d => decide (¬ d.id = i)) := by
  induction docs with
  | nil => rfl
  | cons d r ih =>
    rw [List.map_cons, List.nodup_cons] at hid
    by_cases hd : d.id = i
    · have hr : r.filter (fun d' => !decide (d'.id = i)) = r := by
        rw [List.filter_eq_self]
        intro b hb
        simp only [Bool.not_eq_true', decide_eq_false_iff_not]
        intro hbi
        exact hid.1 (by
          rw [hd, ← hbi]
          exact List.mem_map_of_mem Doc.id hb)
      simp [deleteOne, hd, List.filter_cons, hr]
    · simp [deleteOne, hd, List.filter_cons, ih hid.2]

/-- With pairwise-distinct `_id`s, the whole deletion loop is a filter on the
deletion set. -/
theorem foldl_deleteOne_eq_filter (L : List Nat) (docs : List Doc)
    (hid : (docs.map Doc.id).Nodup) :
    L.foldl (fun acc i => deleteOne i acc) docs =
      docs.filter (fun d => decide (d.id ∉ L)) := by
  induction L generalizing docs with
  | nil => simp
  | cons i L' ih =>
    rw [List.foldl_cons, deleteOne_eq_filter i docs hid]
    have hsub : ((docs.filter (fun d => decide (¬ d.id = i))).map Doc.id).Nodup :=
      ((List.filter_sublist docs).map Doc.id).nodup hid
    rw [ih _ hsub, List.filter_filter]
    refine List.filter_congr (fun d _ => ?_)
    simp only [List.mem_cons, decide_eq_true_eq, Bool.and_eq_true,
      decide_eq_true_eq]
    by_cases h1 : d.id = i <;> by_cases h2 : d.id ∈ L' <;> simp [h1, h2]

/-- `removeDuplicates` with pairwise-distinct `_id`s keeps exactly the
documents outside the deletion set. -/
theorem removeDuplicates_eq_filter (docs : List Doc)
    (hid : (docs.map Doc.id).Nodup) :
    removeDuplicates docs =
      docs.filter (fun d => decide (d.id ∉ idsToDelete docs)) :=
  foldl_deleteOne_eq_filter (idsToDelete docs) docs hid

/-- After the repair filter, each field-value group retains exactly its first
member. -/
theorem groupIds_repair (docs : List Doc) (hid : (docs.map Doc.id).Nodup)
    (h : Int) :
    groupIds (docs.filter (fun d => decide (d.id ∉ idsToDelete docs))) h =
      (groupIds docs h).take 1 := by
  have hcomm :
      (docs.filter (fun d => decide (d.id ∉ idsToDelete docs))).filter
          (fun d => decide (d.height = h)) =
        (docs.filter (fun d => decide (d.height = h))).filter
          (fun d => decide (d.id ∉ idsToDelete docs)) := by
    rw [List.filter_filter, List.filter_filter]
    exact List.filter_congr (fun d _ => Bool.and_comm _ _)
  show ((docs.filter (fun d => decide (d.id ∉ idsToDelete docs))).filter
      (fun d => decide (d.height = h))).map Doc.id = _
  rw [hcomm]
  rcases hg : docs.filter (fun d => decide (d.height = h)) with _ | ⟨d0, tl⟩
  · simp [groupIds, hg]
  · have hgid : groupIds docs h = d0.id :: tl.map Doc.id := by
      unfold groupIds
      rw [hg, List.map_cons]
    have hgmem : ∀ b, b ∈ d0 :: tl →
        b ∈ docs ∧ b.height = h := by
      intro b hb
      have : b ∈ docs.filter (fun d => decide (d.height = h)) := hg ▸ hb
      have hmf := List.mem_filter.mp this
      exact ⟨hmf.1, by simpa using hmf.2⟩
    have hnodupg : (d0.id :: tl.map Doc.id).Nodup := by
      have : ((d0 :: tl).map Doc.id).Nodup := by
        rw [← hg]
        exact ((List.filter_sublist docs).map Doc.id).nodup hid
      simpa using this
    have hd0 : d0.id ∉ idsToDelete docs := by
      intro hmem
      rcases List.mem_flatMap.mp hmem with ⟨h', hh', htail⟩
      have hmemg : d0.id ∈ groupIds docs h' := List.mem_of_mem_tail htail
      rcases List.mem_map.mp hmemg with ⟨d', hd', hdid⟩
      have hmf := List.mem_filter.mp hd'
      have hde : d' = d0 :=
        List.inj_on_of_nodup_map hid hmf.1 (hgmem d0 (by simp)).1 hdid
      have hh'eq : h' = h := by
        have h1 : d'.height = h' := by simpa using hmf.2
        rw [hde] at h1
        rw [← h1, (hgmem d0 (by simp)).2]
      rw [hh'eq, hgid] at htail
      exact (List.nodup_cons.mp hnodupg).1 (by simpa [hdid] using htail)
    have htl : ∀ d ∈ tl, d.id ∈ idsToDelete docs := by
      intro d hd
      refine List.mem_flatMap.mpr ⟨h, ?_, ?_⟩
      · unfold dupHeights
        refine List.mem_filter.mpr ⟨?_, ?_⟩
        · rw [List.mem_dedup]
          have hd0docs := hgmem d0 (by simp)
          rw [← hd0docs.2]
          exact List.mem_map_of_mem Doc.height hd0docs.1
        · rw [hgid]
          simp only [decide_eq_true_eq, List.length_cons, List.length_map]
          have : 0 < tl.length := List.length_pos.mpr (by
            intro hnil
            rw [hnil] at hd
            simp at hd)
          omega
      · rw [hgid]
        exact List.mem_map_of_mem Doc.id hd
    have hfilter : (d0 :: tl).filter
        (fun d => decide (d.id ∉ idsToDelete docs)) = [d0] := by
      rw [List.filter_cons]
      have h1 : (decide (d0.id ∉ idsToDelete docs)) = true := by
        simpa using hd0
      rw [if_pos h1]
      have h2 : tl.filter (fun d => decide (d.id ∉ idsToDelete docs)) = [] := by
        rw [List.filter_eq_nil_iff]
        intro d hd
        simpa using htl d hd
      rw [h2]
    rw [hg] at hcomm ⊢
    rw [hfilter, hgid]
    rfl

/-- A list of length at most one is its own one-element front. -/
theorem take_one_of_length_le_one {α : Type} (l : List α) (hl : l.length ≤ 1) :
    l.take 1 = l := by
  match l with
  | [] => rfl
  | [x] => rfl
  | x :: y :: r => simp at hl

/-- Index creation succeeds on a collection whose groups all have at most one
member. -/
theorem hasDupHeights_false_of_small (docs : List Doc)
    (hsmall : ∀ h, (groupIds docs h).length ≤ 1) :
    hasDupHeights docs = false := by
  unfold hasDupHeights
  rw [List.any_eq_false]
  intro d _
  simp only [decide_eq_true_eq]
  exact not_lt.mpr (hsmall d.height)

/-- Without duplicates every group already has at most one member. -/
theorem groups_small_of_hasDup_false (docs : List Doc)
    (hdup : hasDupHeights docs = false) (h : Int) :
    (groupIds docs h).length ≤ 1 := by
  unfold hasDupHeights at hdup
  rw [List.any_eq_false] at hdup
  rcases hg : docs.filter (fun d => decide (d.height = h)) with _ | ⟨d0, tl⟩
  · simp [groupIds, hg]
  · have hd0 : d0 ∈ docs ∧ d0.height = h := by
      have : d0 ∈ docs.filter (fun d => decide (d.height = h)) := by
        rw [hg]
        simp
      have hmf := List.mem_filter.mp this
      exact ⟨hmf.1, by simpa using hmf.2⟩
    have := hdup d0 hd0.1
    simp only [decide_eq_true_eq, not_lt] at this
    rw [hd0.2] at this
    exact this

/-- C3: with pairwise-distinct `_id`s (MongoDB guarantees them), the index
bootstrap always returns a collection: when duplicates made the first
`CreateOne` fail, the repair pass deletes all but the first-encountered
member of every group and the retried creation succeeds; each field value
then has exactly its first-pushed member left. -/
theorem claimC3 (docs : List Doc) (hid : (docs.map Doc.id).Nodup) :
    ∃ r, createUniqueIndex docs = some r ∧
      (∀ h, groupIds r h = (groupIds docs h).take 1) ∧
      hasDupHeights r = false := by
  cases hdup : hasDupHeights docs with
  | false =>
    refine ⟨docs, ?_, ?_, hdup⟩
    · simp [createUniqueIndex, hdup]
    · intro h
      exact (take_one_of_length_le_one _
        (groups_small_of_hasDup_false docs hdup h)).symm
  | true =>
    have htake : ∀ h, groupIds (removeDuplicates docs) h =
        (groupIds docs h).take 1 := by
      intro h
      rw [removeDuplicates_eq_filter docs hid]
      exact groupIds_repair docs hid h
    have hrep : hasDupHeights (removeDuplicates docs) = false := by
      refine hasDupHeights_false_of_small _ (fun h => ?_)
      rw [htake h]
      exact List.length_take_le 1 (groupIds docs h)
    refine ⟨removeDuplicates docs, ?_, htake, hrep⟩
    simp [createUniqueIndex, hdup, hrep]

/-- C3 witness: the specification's two-document scenario — two documents
sharing height 100; after repair the creation succeeds and exactly one
document with height 100 remains (the first one). -/
theorem claimC3_witness :
    (∃ r, createUniqueIndex [⟨1, 100⟩, ⟨2, 100⟩] = some r ∧
      (∀ h, groupIds r h = (groupIds [⟨1, 100⟩, ⟨2, 100⟩] h).take 1) ∧
      hasDupHeights r = false) ∧
    createUniqueIndex [⟨1, 100⟩, ⟨2, 100⟩] = some [⟨1, 100⟩] ∧
    ((createUniqueIndex [⟨1, 100⟩, ⟨2, 100⟩]).getD []).countP
        (fun d => decide (d.height = 100)) = 1 :=
  ⟨claimC3 [⟨1, 100⟩, ⟨2, 100⟩] (by decide), by decide, by decide⟩

end NodeLog
